import Mathlib

/-
Verification of the google-maps-scraper extraction pipeline against its
natural-language specification.

The development shallowly embeds the claim-relevant parts of the Go source:

* `scrollWithBrowserless` (src/unnamed/part_002): the scroll paginator.
  The page is abstracted as a stream of `page.Evaluate` outcomes, one per
  call, and the run cancellation context as a boolean per iteration
  boundary.  Inter-round wait durations (the `waitTime` float that grows
  by a factor of 1.3 up to a cap) and sleeps are real-time behaviour with
  no influence on the returned values, so they are not modelled.
* `PlaceJob.ExtractJSON` (src/gmaps/place.go): the page-state extractor,
  with a JSON value type for the variably-typed playwright evaluation
  result, a serializer mirroring Go's `encoding/json.Marshal` on such
  values (sorted object keys, compact output), and an executable JSON
  syntax validator mirroring `json.Valid`.
* `PlaceJob.Process` (src/gmaps/place.go) and `EmailExtractJob.Process`
  (src/unnamed/part_009): the fan-out steps, with the calls the code
  makes on the completion monitor (`exiter.Exiter`) recorded as an event
  trace.  Collaborators whose code is not part of the repository's files
  (EntryFromJSON, scrollReviews, goquery/email-library extraction) enter
  as oracle inputs carried by the response record.
-/

/-! ## Scroll paginator (`scrollWithBrowserless`, src/unnamed/part_002) -/

/-- Outcome of one `page.Evaluate(expr, scrollSelector, waitTime)` call in
the scroll loop: the call errors, returns a numeric scroll height (the Go
code truncates a `float64` result with `int(...)`, so the model carries the
already-truncated integer), or returns a non-numeric value. -/
inductive EvalRes where
  | err
  | num (h : Nat)
  | nonNum
deriving DecidableEq, Repr

/-- The error cases of `scrollWithBrowserless`. -/
inductive ScrollErr where
  | selectorNotFound   -- "scroll element not found"
  | evalFailed         -- "scroll evaluation failed after retries"
  | notANumber         -- "scrollHeight is not a number"
  | ctxCancelled       -- ctx.Err() returned at the cancellation check
deriving DecidableEq, Repr

/-- What a call of `scrollWithBrowserless` returns.  `retVal` is the `int`
the Go function returns as its first value and `err` its second; `rounds`
is a ghost observable recording the value of the loop counter `cnt` at the
moment of return, i.e. how many loop iterations were entered. -/
structure ScrollResult where
  retVal : Nat
  err : Option ScrollErr
  rounds : Nat
deriving DecidableEq, Repr

/-- The inner retry loop of `scrollWithBrowserless`: up to 3 `Evaluate`
calls, stopping at the first that does not error (a successful call that
returns a non-number still ends the retry loop — the type check happens
after it).  Returns the final outcome together with the index of the next
unconsumed stream element. -/
def evalRetry (evals : Nat → EvalRes) (k : Nat) : EvalRes × Nat :=
  match evals k with
  | EvalRes.err =>
    match evals (k + 1) with
    | EvalRes.err => (evals (k + 2), k + 3)
    | r => (r, k + 2)
  | r => (r, k + 1)

/-- The `for i := 0; i < maxDepth; i++` loop of `scrollWithBrowserless`.
`fuel` is the number of remaining iterations (`maxDepth - i`), `k` the
next index of the evaluation stream, `cnt` the Go loop counter, and `cur`
the Go variable `currentScrollHeight` (initially 0).  Each iteration:
increment `cnt`; run the eval-with-retry; on persistent evaluation error
or a non-numeric height return `cnt` with the error; otherwise compare the
height with `cur` and stop returning `cnt` when they are equal; otherwise
update `cur`, and if the cancellation context is done return the *current
height* (not `cnt`) with the context error; otherwise wait and continue.
`cancelled c` abstracts whether `ctx.Done()` is ready at the check that
follows the `c`-th completed round. -/
def scrollLoop (evals : Nat → EvalRes) (cancelled : Nat → Bool) :
    Nat → Nat → Nat → Nat → ScrollResult
  | 0, _, cnt, _ => ⟨cnt, none, cnt⟩
  | fuel + 1, k, cnt, cur =>
    match evalRetry evals k with
    | (EvalRes.err, _) => ⟨cnt + 1, some ScrollErr.evalFailed, cnt + 1⟩
    | (EvalRes.nonNum, _) => ⟨cnt + 1, some ScrollErr.notANumber, cnt + 1⟩
    | (EvalRes.num h, k2) =>
      if h = cur then ⟨cnt + 1, none, cnt + 1⟩
      else if cancelled (cnt + 1) then ⟨h, some ScrollErr.ctxCancelled, cnt + 1⟩
      else scrollLoop evals cancelled fuel k2 (cnt + 1) h

/-- `scrollWithBrowserless(ctx, page, maxDepth)`: wait for the feed
selector (abstracted by `selectorFound`), then run the scroll loop. -/
def scrollWithBrowserless (selectorFound : Bool) (evals : Nat → EvalRes)
    (cancelled : Nat → Bool) (maxDepth : Nat) : ScrollResult :=
  if selectorFound then scrollLoop evals cancelled maxDepth 0 0 0
  else ⟨0, some ScrollErr.selectorNotFound, 0⟩

/-- The scripted height sequence [100, 250, 250, ...] of the spec's scroll
exhaustion property: round 1 sees 100, every later round sees 250. -/
def heightsC2 : Nat → EvalRes := fun k => if k = 0 then EvalRes.num 100 else EvalRes.num 250

/-- A run that is never cancelled. -/
def neverCancelled : Nat → Bool := fun _ => false

/-! ## Page-state extractor (`PlaceJob.ExtractJSON`, src/gmaps/place.go)

The extractor evaluates a script whose result `rawI` may be a string, a
byte slice, a JSON array, a JSON object, nil, or anything else; the Go
code normalizes it to a string, strips the anti-JSON-hijacking token,
trims whitespace and validates with `encoding/json.Valid`, retrying up to
3 attempts.  We embed a JSON value type, a serializer mirroring
`json.Marshal` on such values, and an executable syntax validator
mirroring `json.Valid`. -/

/-- The double-quote character. -/
def quoteChar : Char := Char.ofNat 34

/-- The backslash character. -/
def backslashChar : Char := Char.ofNat 92

/-- Opening curly brace. -/
def lbraceChar : Char := Char.ofNat 123

/-- Closing curly brace. -/
def rbraceChar : Char := Char.ofNat 125

/-- JSON / Go whitespace (space, tab, newline, carriage return); also what
`strings.TrimSpace` trims on the inputs the extractor sees (its full
Unicode space handling is not exercised here). -/
def isSpaceChar (c : Char) : Bool :=
  c = ' ' || c = Char.ofNat 9 || c = Char.ofNat 10 || c = Char.ofNat 13

/-- Drop leading whitespace. -/
def skipWs : List Char → List Char
  | [] => []
  | c :: cs => if isSpaceChar c then skipWs cs else c :: cs

/-- ASCII digit test. -/
def isDigitChar (c : Char) : Bool := 48 ≤ c.toNat && c.toNat ≤ 57

/-- ASCII hex digit test. -/
def isHexChar (c : Char) : Bool :=
  isDigitChar c || (97 ≤ c.toNat && c.toNat ≤ 102) || (65 ≤ c.toNat && c.toNat ≤ 70)

/-- Drop leading digits. -/
def dropDigits : List Char → List Char
  | [] => []
  | c :: cs => if isDigitChar c then dropDigits cs else c :: cs

/-- Scan the rest of a JSON string literal (the opening quote already
consumed): ordinary characters, the simple escapes and `\uXXXX`; raw
control characters are invalid.  Returns the input after the closing
quote. -/
def parseStringRest : List Char → Option (List Char)
  | [] => none
  | c :: cs =>
    if c = quoteChar then some cs
    else if c = backslashChar then
      match cs with
      | [] => none
      | e :: cs2 =>
        if e = quoteChar || e = backslashChar || e = '/' || e = 'b' || e = 'f' ||
            e = 'n' || e = 'r' || e = 't' then
          parseStringRest cs2
        else if e = 'u' then
          match cs2 with
          | a :: b2 :: c2 :: d :: cs3 =>
            if isHexChar a && isHexChar b2 && isHexChar c2 && isHexChar d then
              parseStringRest cs3
            else none
          | _ => none
        else none
    else if c.toNat < 32 then none
    else parseStringRest cs

/-- Optional exponent part of a JSON number. -/
def parseExpPart : List Char → Option (List Char)
  | [] => some []
  | c :: cs =>
    if c = 'e' || c = 'E' then
      match (match cs with
             | x :: xs => if x = '+' || x = '-' then xs else cs
             | [] => cs) with
      | d :: ds => if isDigitChar d then some (dropDigits ds) else none
      | [] => none
    else some (c :: cs)

/-- Optional fraction part of a JSON number, then the exponent part. -/
def parseFracPart : List Char → Option (List Char)
  | [] => some []
  | c :: cs =>
    if c = '.' then
      match cs with
      | d :: ds => if isDigitChar d then parseExpPart (dropDigits ds) else none
      | [] => none
    else parseExpPart (c :: cs)

/-- A JSON number: optional minus, integer part without leading zeros,
optional fraction and exponent. -/
def parseNum : List Char → Option (List Char)
  | [] => none
  | c :: cs =>
    match (if c = '-' then cs else c :: cs) with
    | [] => none
    | d :: ds =>
      if d = '0' then parseFracPart ds
      else if isDigitChar d then parseFracPart (dropDigits ds)
      else none

/-- Match an expected literal tail (for true/false/null). -/
def expectChars : List Char → List Char → Option (List Char)
  | [], s => some s
  | _ :: _, [] => none
  | c :: cs, x :: xs => if x = c then expectChars cs xs else none

mutual
/-- One JSON value, fueled (the fuel only bounds nesting/iteration; the
top-level caller passes more fuel than the input length can consume). -/
def parseVal : Nat → List Char → Option (List Char)
  | 0, _ => none
  | f + 1, s =>
    match skipWs s with
    | [] => none
    | c :: cs =>
      if c = 't' then expectChars ['r', 'u', 'e'] cs
      else if c = 'f' then expectChars ['a', 'l', 's', 'e'] cs
      else if c = 'n' then expectChars ['u', 'l', 'l'] cs
      else if c = quoteChar then parseStringRest cs
      else if c = '-' || isDigitChar c then parseNum (c :: cs)
      else if c = '[' then
        match skipWs cs with
        | d :: rest => if d = ']' then some rest else parseArrItems f (d :: rest)
        | [] => none
      else if c = lbraceChar then
        match skipWs cs with
        | d :: rest => if d = rbraceChar then some rest else parseObjItems f (d :: rest)
        | [] => none
      else none

/-- Comma-separated array items up to the closing bracket. -/
def parseArrItems : Nat → List Char → Option (List Char)
  | 0, _ => none
  | f + 1, s =>
    match parseVal f s with
    | none => none
    | some rest =>
      match skipWs rest with
      | d :: rest2 =>
        if d = ',' then parseArrItems f rest2
        else if d = ']' then some rest2
        else none
      | [] => none

/-- Comma-separated `"key": value` members up to the closing brace. -/
def parseObjItems : Nat → List Char → Option (List Char)
  | 0, _ => none
  | f + 1, s =>
    match skipWs s with
    | c :: cs =>
      if c = quoteChar then
        match parseStringRest cs with
        | none => none
        | some rest =>
          match skipWs rest with
          | d :: rest2 =>
            if d = ':' then
              match parseVal f rest2 with
              | none => none
              | some rest3 =>
                match skipWs rest3 with
                | e2 :: rest4 =>
                  if e2 = ',' then parseObjItems f rest4
                  else if e2 = rbraceChar then some rest4
                  else none
                | [] => none
            else none
          | [] => none
      else none
    | [] => none
end

/-- `json.Valid` on a character list: exactly one JSON value surrounded by
optional whitespace. -/
def jsonValidChars (s : List Char) : Bool :=
  match parseVal (2 * s.length + 16) s with
  | some rest => (skipWs rest).isEmpty
  | none => false

/-- `encoding/json.Valid` on a string. -/
def jsonValid (s : String) : Bool := jsonValidChars s.toList

/-- A JSON value as decoded from the playwright evaluation result
(numbers are carried as integers: the claims under verification never
exercise the fractional formatting of Go's float64 marshaling). -/
inductive JValue where
  | jnull
  | jbool (b : Bool)
  | jnum (n : Int)
  | jstr (s : String)
  | jarr (xs : List JValue)
  | jobj (fields : List (String × JValue))

/-- Lower-case hex digit. -/
def hexDigitChar (n : Nat) : Char :=
  if n < 10 then Char.ofNat (48 + n) else Char.ofNat (87 + n)

/-- `json.Marshal` string escaping for one character: quote and backslash
are escaped, control characters become `\u00XX` (Go additionally escapes
the HTML characters and renders some controls as two-character escapes;
the claims never exercise those inputs). -/
def escapeJsonChar (c : Char) : List Char :=
  if c = quoteChar then [backslashChar, quoteChar]
  else if c = backslashChar then [backslashChar, backslashChar]
  else if c.toNat < 32 then
    [backslashChar, 'u', '0', '0', hexDigitChar (c.toNat / 16), hexDigitChar (c.toNat % 16)]
  else [c]

/-- A marshaled JSON string literal with its quotes. -/
def marshalString (s : String) : List Char :=
  quoteChar :: s.toList.foldr (fun c acc => escapeJsonChar c ++ acc) [quoteChar]

mutual
/-- `encoding/json.Marshal` of a JSON value: compact output.  Go emits a
map's keys in ascending order; a Go map carries no order of its own, so
the embedding stores a `jobj` field list already in that emission order
and the marshaler writes it as given. -/
def marshalVal : JValue → List Char
  | JValue.jnull => ['n', 'u', 'l', 'l']
  | JValue.jbool true => ['t', 'r', 'u', 'e']
  | JValue.jbool false => ['f', 'a', 'l', 's', 'e']
  | JValue.jnum n => (toString n).toList
  | JValue.jstr s => marshalString s
  | JValue.jarr xs => '[' :: (marshalItems xs ++ [']'])
  | JValue.jobj fs => lbraceChar :: (marshalFields fs ++ [rbraceChar])

/-- Comma-joined marshaled array items. -/
def marshalItems : List JValue → List Char
  | [] => []
  | [x] => marshalVal x
  | x :: y :: xs => marshalVal x ++ ',' :: marshalItems (y :: xs)

/-- Comma-joined marshaled `"key":value` members. -/
def marshalFields : List (String × JValue) → List Char
  | [] => []
  | [(k, v)] => marshalString k ++ ':' :: marshalVal v
  | (k, v) :: q :: qs => marshalString k ++ ':' :: marshalVal v ++ ',' :: marshalFields (q :: qs)
end

/-- The variably-typed value `page.Evaluate(js)` hands to `ExtractJSON`:
Go sees `string`, `[]byte` (carried here as its string contents),
`[]interface\x7b\x7d`, `map[string]interface\x7b\x7d`, `nil`, or any
other type (carried here as its `fmt.Sprintf` rendering, which is what
the Go default branch uses).  A `vobj` field list is the content of the
Go map, stored in `json.Marshal` key-emission order (see `marshalVal`). -/
inductive RawVal where
  | vstr (s : String)
  | vbytes (s : String)
  | varr (xs : List JValue)
  | vobj (fs : List (String × JValue))
  | vnil
  | vother (formatted : String)

/-- One `page.Evaluate(js)` call: either an evaluation error or a value. -/
inductive EvalAttempt where
  | evalErr
  | val (v : RawVal)

/-- The anti-JSON-hijacking token `)]}` followed by a single quote —
the Go constant `prefix` in `ExtractJSON`. -/
def antiHijackToken : List Char :=
  [Char.ofNat 41, Char.ofNat 93, rbraceChar, Char.ofNat 39]

/-- `strings.TrimPrefix(raw, prefix)`: drop the anti-hijacking token when
the string starts with it, otherwise return the string unchanged. -/
def stripAntiHijack (s : String) : String :=
  let l := s.toList
  if antiHijackToken.isPrefixOf l then String.mk (l.drop antiHijackToken.length)
  else String.mk l

/-- `strings.TrimSpace`: drop whitespace from both ends. -/
def goTrimSpace (s : String) : String :=
  String.mk (skipWs ((skipWs s.toList.reverse).reverse))

/-- The tail of one extraction attempt once a raw string is in hand:
strip the anti-hijacking token if present, then trim whitespace, then
validate with `json.Valid`; an invalid result makes the attempt fail. -/
def finishRaw (s : String) : Option String :=
  let r := goTrimSpace (stripAntiHijack s)
  if jsonValid r then some r else none

/-- The type-normalization step of `ExtractJSON`: a string or byte slice
is used directly, an array or object is re-serialized with
`json.Marshal` (which cannot fail on values of this shape, so the
marshal-error branches are unreachable), nil makes the attempt fail, and
any other type is used via its `fmt.Sprintf` rendering. -/
def rawString : RawVal → Option String
  | RawVal.vstr s => some s
  | RawVal.vbytes s => some s
  | RawVal.varr xs => some (String.mk (marshalVal (JValue.jarr xs)))
  | RawVal.vobj fs => some (String.mk (marshalVal (JValue.jobj fs)))
  | RawVal.vnil => none
  | RawVal.vother s => some s

/-- One whole attempt of the `ExtractJSON` retry loop: `none` means the
Go loop `continue`s (evaluation error, nil value, or invalid JSON after
normalization). -/
def attemptResult : EvalAttempt → Option String
  | EvalAttempt.evalErr => none
  | EvalAttempt.val v =>
    match rawString v with
    | none => none
    | some s => finishRaw s

/-- The `for attempt := 0; attempt < maxRetries; attempt++` loop of
`ExtractJSON` over a stream of evaluation outcomes, one per attempt.
The 1-second `retryDelay` before each retry is real-time behaviour with
no influence on the returned value and is not modelled; the Go error
additionally wraps the last attempt error, which the model flattens to
the fixed message. -/
def extractJSONLoop (attempts : Nat → EvalAttempt) : Nat → Nat → Except String String
  | 0, _ => Except.error "failed to extract JSON after 3 attempts"
  | n + 1, k =>
    match attemptResult (attempts k) with
    | some out => Except.ok out
    | none => extractJSONLoop attempts n (k + 1)

/-- `PlaceJob.ExtractJSON(page)`: up to `maxRetries = 3` attempts. -/
def extractJSON (attempts : Nat → EvalAttempt) : Except String String :=
  extractJSONLoop attempts 3 0

/-- Decidable equality of extraction results, for evaluating the model at
concrete inputs. -/
instance : DecidableEq (Except String String) := fun x y =>
  match x, y with
  | Except.ok a, Except.ok b =>
    if h : a = b then isTrue (by rw [h])
    else isFalse (fun he => h (Except.ok.inj he))
  | Except.error a, Except.error b =>
    if h : a = b then isTrue (by rw [h])
    else isFalse (fun he => h (Except.error.inj he))
  | Except.ok _, Except.error _ => isFalse (fun he => Except.noConfusion he)
  | Except.error _, Except.ok _ => isFalse (fun he => Except.noConfusion he)

/-! ## Job model and fan-out (`PlaceJob.Process`, src/gmaps/place.go;
`EmailExtractJob.Process`, src/unnamed/part_009)

`Entry` and its methods live in a file (entry.go) that is not among the
repository's files here, so they are modelled from the spec (§3, §4.1);
the processing code that uses them is embedded from the source. -/

/-- Modelled from the spec: a Review (§3) — author name, author profile
URL, numeric rating, relative time description, review text; the
repository's entry.go is not among the files here, so the rating's exact
numeric type is taken as an integer (no claim touches it). -/
structure Review where
  authorName : String
  authorURL : String
  rating : Int
  relativeTime : String
  text : String
deriving DecidableEq, Repr

/-- Modelled from the spec: the Entry record (§3).  The repository's
entry.go (EntryFromJSON, AddReview, IsWebsiteValidForEmail) is not among
the files here; the fields the claims touch are kept. -/
structure Entry where
  id : String
  title : String
  category : String
  address : String
  link : String
  webSite : String
  reviewCount : Int
  reviews : List Review
  emails : List String
deriving DecidableEq, Repr

/-- Modelled from the spec: `Entry.AddReview` appends one review
(insertion order = fetch order, append-only, §3). -/
def Entry.addReview (e : Entry) (r : Review) : Entry :=
  { e with reviews := e.reviews ++ [r] }

/-- Modelled from the spec: known social/aggregator domains the system
skips for email extraction (§4.1 calls it an allow/deny heuristic, not a
hard constraint; a representative deny list). -/
def skipDomains : List String :=
  ["facebook.com", "instagram.com", "twitter.com", "linkedin.com", "youtube.com"]

/-- Substring occurrence test (`strings.Contains`). -/
def containsSeq (needle : List Char) : List Char → Bool
  | [] => needle.isEmpty
  | c :: tail => needle.isPrefixOf (c :: tail) || containsSeq needle tail

/-- Modelled from the spec: `Entry.IsWebsiteValidForEmail` — a non-empty
business website that is not a known social/aggregator domain (§4.1). -/
def Entry.isWebsiteValidForEmail (e : Entry) : Bool :=
  e.webSite != "" && skipDomains.all (fun d => !(containsSeq d.toList e.webSite.toList))

/-- scrapemate job priorities (High > Medium > Low). -/
inductive Priority where
  | high
  | medium
  | low
deriving DecidableEq, Repr

/-- PlaceJob (src/gmaps/place.go).  The generated uuid `ID` is opaque and
unused by `Process`, so it is not carried; `hasExitMonitor` records
whether `WithPlaceJobExitMonitor` installed a non-nil `ExitMonitor`. -/
structure PlaceJob where
  parentID : String
  url : String
  urlParams : List (String × String)
  maxRetries : Nat
  priority : Priority
  usageInResults : Bool
  extractEmail : Bool
  extractExtraReviews : Bool
  reviewsLimit : Int
  hasExitMonitor : Bool
deriving DecidableEq, Repr

/-- Query-string rendering of URL parameters. -/
def joinParams : List (String × String) → String
  | [] => ""
  | [(k, v)] => k ++ "=" ++ v
  | (k, v) :: q :: qs => k ++ "=" ++ v ++ "&" ++ joinParams (q :: qs)

/-- `scrapemate.Job.GetFullURL` (external library): the URL with its
query parameters appended (percent-encoding is not modelled; the only
parameter the jobs carry is the plain `hl` language code). -/
def PlaceJob.getFullURL (j : PlaceJob) : String :=
  match j.urlParams with
  | [] => j.url
  | ps => j.url ++ "?" ++ joinParams ps

/-- `NewPlaceJob` (src/gmaps/place.go): medium priority, 3 retries, the
`hl` parameter set from the language code, flags from the arguments. -/
def NewPlaceJob (parentID langCode u : String) (extractEmail extraExtraReviews : Bool)
    (reviewsLimit : Int) (hasExitMonitor : Bool) : PlaceJob :=
  { parentID := parentID
  , url := u
  , urlParams := [("hl", langCode)]
  , maxRetries := 3
  , priority := Priority.medium
  , usageInResults := true
  , extractEmail := extractEmail
  , extractExtraReviews := extraExtraReviews
  , reviewsLimit := reviewsLimit
  , hasExitMonitor := hasExitMonitor }

/-- EmailExtractJob (src/unnamed/part_009).  The generated uuid is
opaque and not carried. -/
structure EmailJob where
  parentID : String
  url : String
  maxRetries : Nat
  priority : Priority
  entry : Entry
  hasExitMonitor : Bool
deriving DecidableEq, Repr

/-- `NewEmailJob(parentID, &entry)` exactly as `PlaceJob.Process` calls
it: high priority, zero retries, the URL taken from the entry's website,
and no option passed — so the email job's `ExitMonitor` stays nil. -/
def NewEmailJob (parentID : String) (entry : Entry) : EmailJob :=
  { parentID := parentID
  , url := entry.webSite
  , maxRetries := 0
  , priority := Priority.high
  , entry := entry
  , hasExitMonitor := false }

/-- A child job a `Process` call may emit. -/
inductive ChildJob where
  | email (j : EmailJob)
deriving DecidableEq, Repr

/-- A call made on the completion monitor (`exiter.Exiter`, whose own
code is not among the repository's files; the names follow its callers
here and in the runners). -/
inductive MonitorEvent where
  | incrPlaces (n : Nat)
  | incrPlacesCompleted (n : Nat)
  | incrSeedCompleted (n : Nat)
deriving DecidableEq, Repr

/-- What one `Process` call produces: the `(any, []IJob, error)` triple
together with the ordered trace of completion-monitor calls the code
made during the call. -/
structure ProcessOutcome where
  result : Option Entry
  children : List ChildJob
  err : Option String
  monitorEvents : List MonitorEvent
deriving DecidableEq, Repr

/-- Outcome of `scrollReviews` (a collaborator not among the
repository's files): an error, or the fetched reviews. -/
inductive ScrollReviewsResult where
  | failed
  | fetched (reviews : List Review)
deriving DecidableEq, Repr

/-- What the response and the out-of-file collaborators hand
`PlaceJob.Process`: whether `resp.Meta["json"]` is a byte slice and its
contents; the result of `EntryFromJSON(raw)` (modelled from the spec:
the Entry built from the payload, its `link` empty when the payload
lacks a link field); the review count `getReviewCount` reads via its
tolerant re-parse (0 when that parse fails); whether `resp.Document` is
a playwright page; and the review-fetching outcomes. -/
structure PlaceResponse where
  metaJSONOk : Bool
  rawJSON : String
  parsed : Except String Entry
  reviewCountParsed : Int
  docIsPage : Bool
  scrollReviews : ScrollReviewsResult
  fetchReviewsOk : Bool

/-- BusinessInfo (src/gmaps/place.go). -/
structure BusinessInfo where
  website : String
deriving DecidableEq, Repr

/-- `extractBusinessInfo` exactly as src/gmaps/place.go defines it: a
stub that returns an empty website regardless of the raw payload. -/
def extractBusinessInfo (_raw : String) : BusinessInfo := { website := "" }

/-- The email fan-out tail of `PlaceJob.Process`: when `ExtractEmail` is
set, overwrite the website only if `extractBusinessInfo` found one (it
never does — a stub), then emit exactly one `EmailExtractJob` when the
website is valid for email extraction.  No completion-monitor call is
made anywhere in `Process`. -/
def placeEmailStep (j : PlaceJob) (raw : String) (e : Entry) : ProcessOutcome :=
  if j.extractEmail then
    let info := extractBusinessInfo raw
    let e2 := if info.website != "" then { e with webSite := info.website } else e
    if e2.isWebsiteValidForEmail then
      { result := some e2
      , children := [ChildJob.email (NewEmailJob j.parentID e2)]
      , err := none
      , monitorEvents := [] }
    else
      { result := some e2, children := [], err := none, monitorEvents := [] }
  else
    { result := some e, children := [], err := none, monitorEvents := [] }

/-- `PlaceJob.Process` (src/gmaps/place.go): convert the side-channel
payload; build the Entry (id from the job's parent id, link defaulted to
the job's full URL when the payload gave none); when extra reviews are
requested and the tolerant re-parse counts more than 8, walk the review
branch (with a nil-limit sub-branch whose fetched `reviewData` goes into
`resp.Meta`, not the Entry, and early returns when the document is not a
playwright page); finally the email fan-out step. -/
def placeProcess (j : PlaceJob) (resp : PlaceResponse) : ProcessOutcome :=
  if !resp.metaJSONOk then
    { result := none, children := [], err := some "could not convert to byte slice"
    , monitorEvents := [] }
  else
    match resp.parsed with
    | Except.error e =>
      { result := none, children := [], err := some e, monitorEvents := [] }
    | Except.ok e0 =>
      let e1 := { e0 with id := j.parentID }
      let e2 := if e1.link = "" then { e1 with link := j.getFullURL } else e1
      if j.extractExtraReviews && decide (resp.reviewCountParsed > 8) then
        if j.reviewsLimit != 0 then
          if !resp.docIsPage then
            { result := some e2, children := [], err := none, monitorEvents := [] }
          else
            match resp.scrollReviews with
            | ScrollReviewsResult.failed => placeEmailStep j resp.rawJSON e2
            | ScrollReviewsResult.fetched reviews =>
              placeEmailStep j resp.rawJSON (reviews.foldl Entry.addReview e2)
        else
          if !resp.docIsPage then
            { result := some e2, children := [], err := none, monitorEvents := [] }
          else placeEmailStep j resp.rawJSON e2
      else placeEmailStep j resp.rawJSON e2

/-- What the response and the out-of-file collaborators hand
`EmailExtractJob.Process`: whether the fetch failed (`resp.Error` set),
whether `resp.Document` is a goquery document, and the outcomes of the
DOM (`docEmailExtractor`) and regex (`regexEmailExtractor`) extractors,
both backed by external libraries. -/
structure EmailResponse where
  hasError : Bool
  docIsGoquery : Bool
  docEmails : List String
  bodyEmails : List String
deriving DecidableEq, Repr

/-- `EmailExtractJob.Process` (src/unnamed/part_009): the deferred
`IncrPlacesCompleted(1)` fires on every path when the job carries a
monitor; a fetch error or unusable document returns the entry untouched
with no error and no children; otherwise the extracted emails (DOM
extractor first, regex fallback) are stored on the entry.  It never
emits child jobs. -/
def emailProcess (j : EmailJob) (resp : EmailResponse) : ProcessOutcome :=
  let events := if j.hasExitMonitor then [MonitorEvent.incrPlacesCompleted 1] else []
  if resp.hasError then
    { result := some j.entry, children := [], err := none, monitorEvents := events }
  else if !resp.docIsGoquery then
    { result := some j.entry, children := [], err := none, monitorEvents := events }
  else
    let emails := if resp.docEmails.isEmpty then resp.bodyEmails else resp.docEmails
    { result := some { j.entry with emails := emails }, children := []
    , err := none, monitorEvents := events }

/-- A concrete Entry parsed from a payload that lacked a `link` field but
carried a business website. -/
def entryC1 : Entry :=
  { id := "", title := "Cafe", category := "", address := "", link := ""
  , webSite := "https://example.com", reviewCount := 0, reviews := [], emails := [] }

/-- A concrete PlaceJob with email extraction on and the exit monitor
installed. -/
def placeJobC1 : PlaceJob :=
  NewPlaceJob "seed-1" "en" "https://maps.example/place/cafe" true false 0 true

/-- The matching concrete response for `placeJobC1`. -/
def placeRespC1 : PlaceResponse :=
  { metaJSONOk := true, rawJSON := "\x7b\x7d", parsed := Except.ok entryC1
  , reviewCountParsed := 0, docIsPage := true
  , scrollReviews := ScrollReviewsResult.failed, fetchReviewsOk := true }

/-- A concrete email-job response whose fetch failed. -/
def emailRespErr : EmailResponse :=
  { hasError := true, docIsGoquery := true, docEmails := [], bodyEmails := [] }

/-- A concrete email-job response whose fetch succeeded. -/
def emailRespOk : EmailResponse :=
  { hasError := false, docIsGoquery := true, docEmails := [], bodyEmails := [] }

/-! ## Theorems about the scroll paginator (claims C2, C6, C7) -/

/-- Helper: the loop counter at return never exceeds the remaining
iteration budget: at most `cnt + fuel` rounds are ever entered. -/
theorem scrollLoop_rounds_le (evals : Nat → EvalRes) (cancelled : Nat → Bool) :
    ∀ fuel k cnt cur, (scrollLoop evals cancelled fuel k cnt cur).rounds ≤ cnt + fuel := by
  intro fuel
  induction fuel with
  | zero => intro k cnt cur; simp [scrollLoop]
  | succ n ih =>
    intro k cnt cur
    unfold scrollLoop
    split
    · show cnt + 1 ≤ cnt + (n + 1); omega
    · show cnt + 1 ≤ cnt + (n + 1); omega
    · rename_i h k2 _
      split
      · show cnt + 1 ≤ cnt + (n + 1); omega
      · split
        · show cnt + 1 ≤ cnt + (n + 1); omega
        · calc (scrollLoop evals cancelled n k2 (cnt + 1) h).rounds
              ≤ (cnt + 1) + n := ih k2 (cnt + 1) h
            _ = cnt + (n + 1) := by omega

/-- Helper: on a strictly increasing height stream with the current height
strictly below the next one, the scroll loop runs its full budget and
returns the budget as its count, with no error. -/
theorem scrollLoop_increasing (hs : Nat → Nat) (hmono : ∀ i, hs i < hs (i + 1)) :
    ∀ fuel k cnt cur, cur < hs k →
      scrollLoop (fun i => EvalRes.num (hs i)) neverCancelled fuel k cnt cur =
        ⟨cnt + fuel, none, cnt + fuel⟩ := by
  intro fuel
  induction fuel with
  | zero => intro k cnt cur _; simp [scrollLoop]
  | succ n ih =>
    intro k cnt cur hlt
    unfold scrollLoop
    have he : evalRetry (fun i => EvalRes.num (hs i)) k = (EvalRes.num (hs k), k + 1) := rfl
    rw [he]
    have hne : hs k ≠ cur := by omega
    simp only [if_neg hne, neverCancelled, Bool.false_eq_true, if_neg, if_false]
    rw [ih (k + 1) (cnt + 1) (hs k) (hmono k)]
    have harith : cnt + 1 + n = cnt + (n + 1) := by omega
    rw [harith]

/-- C2: with scripted heights [100, 250, 250] the paginator does NOT stop
after 2 rounds reporting 2: it enters a third round, observes the repeated
height there, and returns 3 as its count. -/
theorem scroll_exhaustion_claim_cex :
    scrollWithBrowserless true heightsC2 neverCancelled 10 = ⟨3, none, 3⟩ ∧
    ¬((scrollWithBrowserless true heightsC2 neverCancelled 10).rounds = 2 ∧
      (scrollWithBrowserless true heightsC2 neverCancelled 10).retVal = 2) := by
  decide

/-- C2 (amended): height repetition stops the loop as soon as a round's
returned height equals the previous round's height, but the round that
observes the repetition is itself counted: for the scripted heights
[100, 250, 250] the paginator performs 3 scroll rounds and reports
`iterationsPerformed = 3`. -/
theorem scroll_exhaustion :
    (∀ (evals : Nat → EvalRes) (cancelled : Nat → Bool) (fuel k cnt cur h k2 : Nat),
       evalRetry evals k = (EvalRes.num h, k2) → h = cur →
       scrollLoop evals cancelled (fuel + 1) k cnt cur = ⟨cnt + 1, none, cnt + 1⟩) ∧
    scrollWithBrowserless true heightsC2 neverCancelled 10 = ⟨3, none, 3⟩ := by
  constructor
  · intro evals cancelled fuel k cnt cur h k2 hr heq
    unfold scrollLoop
    rw [hr]
    simp [heq]
  · decide

/-- C6: a strictly monotonically increasing height sequence does NOT always
yield exactly `maxIterations` rounds: for the strictly increasing heights
0, 1, 2, ... (first returned height 0) with `maxIterations = 5`, the first
round's height equals the initial `currentScrollHeight` sentinel 0, so the
loop stops after exactly 1 round. -/
theorem scroll_bound_claim_cex :
    scrollWithBrowserless true (fun k => EvalRes.num k) neverCancelled 5 = ⟨1, none, 1⟩ ∧
    (scrollWithBrowserless true (fun k => EvalRes.num k) neverCancelled 5).rounds ≠ 5 := by
  decide

/-- C6 (amended): the paginator always terminates performing at most
`maxIterations` rounds (the model is a total function, so termination is
by construction), and for a strictly monotonically increasing height
sequence whose first height is nonzero, with `maxIterations = 5`, it
performs exactly 5 rounds. -/
theorem scroll_bound :
    (∀ (sel : Bool) (evals : Nat → EvalRes) (cancelled : Nat → Bool) (maxDepth : Nat),
       (scrollWithBrowserless sel evals cancelled maxDepth).rounds ≤ maxDepth) ∧
    (∀ hs : Nat → Nat, (∀ i, hs i < hs (i + 1)) → 0 < hs 0 →
       scrollWithBrowserless true (fun k => EvalRes.num (hs k)) neverCancelled 5 =
         ⟨5, none, 5⟩) := by
  constructor
  · intro sel evals cancelled maxDepth
    unfold scrollWithBrowserless
    split
    · simpa using scrollLoop_rounds_le evals cancelled maxDepth 0 0 0
    · simp
  · intro hs hmono h0
    unfold scrollWithBrowserless
    rw [if_pos rfl]
    simpa using scrollLoop_increasing hs hmono 5 0 0 0 h0

/-- C7: when the cancellation signal is raised, the first return value is
the current scroll height, not the number of iterations performed: with
heights all 100 and the context cancelled from the start, the function
returns (100, ctx error) after performing 1 round, and 100 is not the
iteration count. -/
theorem scroll_cancel_claim_cex :
    scrollWithBrowserless true (fun _ => EvalRes.num 100) (fun _ => true) 10 =
      ⟨100, some ScrollErr.ctxCancelled, 1⟩ ∧
    (scrollWithBrowserless true (fun _ => EvalRes.num 100) (fun _ => true) 10).retVal ≠
      (scrollWithBrowserless true (fun _ => EvalRes.num 100) (fun _ => true) 10).rounds := by
  decide

/-- C7 (amended): the loop checks the cancellation signal once per
iteration, after the round's height has been read and stored; if the
signal is raised there, it returns promptly with the cancellation error,
its first return value being the scroll height reached so far (not the
iteration count), and performs no further scroll rounds. -/
theorem scroll_cancel (evals : Nat → EvalRes) (cancelled : Nat → Bool)
    (fuel k cnt cur h k2 : Nat)
    (hr : evalRetry evals k = (EvalRes.num h, k2)) (hne : h ≠ cur)
    (hcancel : cancelled (cnt + 1) = true) :
    scrollLoop evals cancelled (fuel + 1) k cnt cur =
      ⟨h, some ScrollErr.ctxCancelled, cnt + 1⟩ := by
  unfold scrollLoop
  rw [hr]
  simp [hne, hcancel]

/-- Witness for C7 (amended) at a concrete input. -/
theorem scroll_cancel_witness :
    scrollLoop (fun _ => EvalRes.num 100) (fun _ => true) 10 0 0 0 =
      ⟨100, some ScrollErr.ctxCancelled, 1⟩ :=
  scroll_cancel (fun _ => EvalRes.num 100) (fun _ => true) 9 0 0 0 100 1 rfl
    (by decide) rfl

/-! ## Theorems about the page-state extractor (claims C3, C4, C5) -/

/-- Helper: a failed attempt (evaluation error, nil, or invalid JSON)
makes the retry loop move on to the next attempt with one retry less. -/
theorem extractJSONLoop_step (attempts : Nat → EvalAttempt) (n k : Nat)
    (h : attemptResult (attempts k) = none) :
    extractJSONLoop attempts (n + 1) k = extractJSONLoop attempts n (k + 1) := by
  conv_lhs => rw [extractJSONLoop]
  rw [h]

/-- Helper: the retry loop only looks at the attempts its budget covers. -/
theorem extractJSONLoop_agree (a b : Nat → EvalAttempt) :
    ∀ n k, (∀ i, i < n → a (k + i) = b (k + i)) →
      extractJSONLoop a n k = extractJSONLoop b n k := by
  intro n
  induction n with
  | zero => intro k _; rfl
  | succ m ih =>
    intro k hag
    have h0 : a k = b k := by simpa using hag 0 (Nat.succ_pos m)
    conv_lhs => rw [extractJSONLoop]
    conv_rhs => rw [extractJSONLoop]
    rw [h0]
    cases hv : attemptResult (b k) with
    | some out => rfl
    | none =>
      apply ih (k + 1)
      intro i hi
      have h2 : k + (i + 1) = k + 1 + i := by omega
      have h3 := hag (i + 1) (by omega)
      rw [h2] at h3
      exact h3

/-- Helper: the finishing step only succeeds on syntactically valid JSON. -/
theorem finishRaw_valid (s out : String) (h : finishRaw s = some out) :
    jsonValid out = true := by
  simp only [finishRaw] at h
  split at h
  · cases h; assumption
  · cases h

/-- Helper: a successful attempt yields syntactically valid JSON. -/
theorem attemptResult_valid (a : EvalAttempt) (out : String)
    (h : attemptResult a = some out) : jsonValid out = true := by
  cases a with
  | evalErr => exact Option.noConfusion h
  | val v =>
    cases v with
    | vstr s => exact finishRaw_valid _ _ h
    | vbytes s => exact finishRaw_valid _ _ h
    | varr xs => exact finishRaw_valid _ _ h
    | vobj fs => exact finishRaw_valid _ _ h
    | vnil => exact Option.noConfusion h
    | vother s => exact finishRaw_valid _ _ h

/-- Helper: whatever the retry loop returns successfully is valid JSON. -/
theorem extractJSONLoop_valid (attempts : Nat → EvalAttempt) :
    ∀ n k out, extractJSONLoop attempts n k = Except.ok out → jsonValid out = true := by
  intro n
  induction n with
  | zero => intro k out h; exact Except.noConfusion h
  | succ m ih =>
    intro k out h
    rw [extractJSONLoop] at h
    cases hv : attemptResult (attempts k) with
    | none => rw [hv] at h; exact ih (k + 1) out h
    | some s =>
      rw [hv] at h
      injection h with h2
      subst h2
      exact attemptResult_valid _ _ hv

/-- C3: the page-state extractor uses a string (or byte-slice) value
directly, re-serializes an array or object value with `json.Marshal`
before the common finishing step, treats a nil value as a failed attempt
that consumes one retry (not a permanent error), and for a string input
that is the marshaling of the same logical content as an array or object
input, the whole extraction returns byte-identical results — concretely,
all input shapes of the logical content `\x7b"a":1\x7d` succeed with the
same bytes. -/
theorem extractor_normalization :
    (∀ s, attemptResult (EvalAttempt.val (RawVal.vstr s)) = finishRaw s) ∧
    (∀ s, attemptResult (EvalAttempt.val (RawVal.vbytes s)) = finishRaw s) ∧
    (∀ xs, attemptResult (EvalAttempt.val (RawVal.varr xs)) =
      finishRaw (String.mk (marshalVal (JValue.jarr xs)))) ∧
    (∀ fs, attemptResult (EvalAttempt.val (RawVal.vobj fs)) =
      finishRaw (String.mk (marshalVal (JValue.jobj fs)))) ∧
    (∀ (attempts : Nat → EvalAttempt) (n k : Nat),
      attempts k = EvalAttempt.val RawVal.vnil →
      extractJSONLoop attempts (n + 1) k = extractJSONLoop attempts n (k + 1)) ∧
    (∀ xs, extractJSON (fun _ => EvalAttempt.val
        (RawVal.vstr (String.mk (marshalVal (JValue.jarr xs))))) =
      extractJSON (fun _ => EvalAttempt.val (RawVal.varr xs))) ∧
    (∀ fs, extractJSON (fun _ => EvalAttempt.val
        (RawVal.vstr (String.mk (marshalVal (JValue.jobj fs))))) =
      extractJSON (fun _ => EvalAttempt.val (RawVal.vobj fs))) ∧
    extractJSON (fun _ => EvalAttempt.val (RawVal.vobj [("a", JValue.jnum 1)])) =
      Except.ok "\x7b\"a\":1\x7d" ∧
    extractJSON (fun _ => EvalAttempt.val (RawVal.vstr "\x7b\"a\":1\x7d")) =
      Except.ok "\x7b\"a\":1\x7d" := by
  refine ⟨fun s => rfl, fun s => rfl, fun xs => rfl, fun fs => rfl, ?_,
    fun xs => rfl, fun fs => rfl, by decide, by decide⟩
  intro attempts n k h
  apply extractJSONLoop_step
  rw [h]
  rfl

/-- C4: the extractor strips the anti-JSON-hijacking token when the raw
string starts with it and every successful extraction result passes JSON
syntax validation; concretely, the raw input `)]\x7d` + quote +
`\x7b"a":1\x7d` extracts to the valid JSON `\x7b"a":1\x7d`. -/
theorem extract_anti_hijack :
    extractJSON (fun _ => EvalAttempt.val (RawVal.vstr
        (String.mk (antiHijackToken ++ "\x7b\"a\":1\x7d".toList)))) =
      Except.ok "\x7b\"a\":1\x7d" ∧
    (∀ l : List Char, stripAntiHijack (String.mk (antiHijackToken ++ l)) = String.mk l) ∧
    (∀ (attempts : Nat → EvalAttempt) (out : String),
      extractJSON attempts = Except.ok out → jsonValid out = true) := by
  refine ⟨by decide, ?_, ?_⟩
  · intro l
    show (if antiHijackToken.isPrefixOf (antiHijackToken ++ l) then
        String.mk ((antiHijackToken ++ l).drop antiHijackToken.length)
      else String.mk (antiHijackToken ++ l)) = String.mk l
    rw [if_pos (by rw [List.isPrefixOf_iff_prefix]; exact List.prefix_append _ _),
      List.drop_left]
  · intro attempts out h
    exact extractJSONLoop_valid attempts 3 0 out h

/-- C5: when each of the first 3 attempts fails (evaluation error, nil
value, or invalid JSON), the extractor returns the terminal extraction
error; it never returns success from a failed attempt (a failed attempt
just consumes one retry) and never looks beyond the 3-attempt bound.
The fixed 1-second delay between attempts is untimed in the model. -/
theorem extract_retry_bound :
    (∀ attempts : Nat → EvalAttempt,
      attemptResult (attempts 0) = none → attemptResult (attempts 1) = none →
      attemptResult (attempts 2) = none →
      extractJSON attempts = Except.error "failed to extract JSON after 3 attempts") ∧
    (∀ a b : Nat → EvalAttempt, a 0 = b 0 → a 1 = b 1 → a 2 = b 2 →
      extractJSON a = extractJSON b) ∧
    (∀ (attempts : Nat → EvalAttempt) (n k : Nat),
      attemptResult (attempts k) = none →
      extractJSONLoop attempts (n + 1) k = extractJSONLoop attempts n (k + 1)) := by
  refine ⟨?_, ?_, extractJSONLoop_step⟩
  · intro attempts h0 h1 h2
    show extractJSONLoop attempts (2 + 1) 0 = _
    rw [extractJSONLoop_step attempts 2 0 h0]
    show extractJSONLoop attempts (1 + 1) 1 = _
    rw [extractJSONLoop_step attempts 1 1 h1]
    show extractJSONLoop attempts (0 + 1) 2 = _
    rw [extractJSONLoop_step attempts 0 2 h2]
    rfl
  · intro a b h0 h1 h2
    apply extractJSONLoop_agree
    intro i hi
    interval_cases i
    · simpa using h0
    · simpa using h1
    · simpa using h2

/-! ## Theorems about the fan-out steps (claims C1, C8, C9, C10) -/

/-- Helper: `placeEmailStep` with the website-overwrite branch resolved
(`extractBusinessInfo` is a stub returning an empty website, so the
entry is never overwritten). -/
theorem placeEmailStep_eq (j : PlaceJob) (raw : String) (e : Entry) :
    placeEmailStep j raw e =
      if j.extractEmail then
        (if e.isWebsiteValidForEmail then
          { result := some e
          , children := [ChildJob.email (NewEmailJob j.parentID e)]
          , err := none, monitorEvents := [] }
         else { result := some e, children := [], err := none, monitorEvents := [] })
      else { result := some e, children := [], err := none, monitorEvents := [] } := rfl

/-- Helper: the email step returns the entry it was given. -/
theorem placeEmailStep_result (j : PlaceJob) (raw : String) (e : Entry) :
    (placeEmailStep j raw e).result = some e := by
  rw [placeEmailStep_eq]
  split
  · split <;> rfl
  · rfl

/-- Helper: the email step makes no completion-monitor call. -/
theorem placeEmailStep_monitor (j : PlaceJob) (raw : String) (e : Entry) :
    (placeEmailStep j raw e).monitorEvents = [] := by
  rw [placeEmailStep_eq]
  split
  · split <;> rfl
  · rfl

/-- Helper: a website valid for email extraction is non-empty. -/
theorem valid_website_nonempty (e : Entry) (h : e.isWebsiteValidForEmail = true) :
    e.webSite ≠ "" := by
  unfold Entry.isWebsiteValidForEmail at h
  rw [Bool.and_eq_true] at h
  exact bne_iff_ne.mp h.1

/-- Helper: the children of the email step are empty or exactly one
EmailExtractJob for the processed entry, emitted only when email
extraction is on and the entry's website is valid for it. -/
theorem placeEmailStep_children (j : PlaceJob) (raw : String) (e : Entry) :
    (placeEmailStep j raw e).children = [] ∨
    ((placeEmailStep j raw e).children = [ChildJob.email (NewEmailJob j.parentID e)] ∧
      j.extractEmail = true ∧ e.isWebsiteValidForEmail = true ∧ e.webSite ≠ "") := by
  rw [placeEmailStep_eq]
  split
  · rename_i hj
    split
    · rename_i hv
      exact Or.inr ⟨rfl, hj, hv, valid_website_nonempty e hv⟩
    · exact Or.inl rfl
  · exact Or.inl rfl

/-- Helper: appending reviews changes neither the id nor the link. -/
theorem foldl_addReview_id_link (rs : List Review) :
    ∀ e : Entry, ((rs.foldl Entry.addReview e).id = e.id ∧
      (rs.foldl Entry.addReview e).link = e.link) := by
  induction rs with
  | nil => intro e; exact ⟨rfl, rfl⟩
  | cons r rs ih =>
    intro e
    have h := ih (Entry.addReview e r)
    simpa [List.foldl_cons, Entry.addReview] using h

/-- C1: evaluated at a PlaceJob that carries the exit monitor and whose
processing emits an EmailExtractJob, `Process` emits the child with no
monitor installed on it and makes no completion-monitor call at all —
there is no registration of the child before (or after) any completion
event, and even the child's own deferred completed-counter increment is
disabled because the job was created without the monitor option. -/
theorem place_fanout_no_registration :
    (placeProcess placeJobC1 placeRespC1).children =
      [ChildJob.email (NewEmailJob "seed-1"
        { entryC1 with id := "seed-1", link := "https://maps.example/place/cafe?hl=en" })] ∧
    (placeProcess placeJobC1 placeRespC1).monitorEvents = [] ∧
    (NewEmailJob "seed-1"
      { entryC1 with
        id := "seed-1",
        link := "https://maps.example/place/cafe?hl=en" }).hasExitMonitor = false ∧
    (emailProcess (NewEmailJob "seed-1"
      { entryC1 with
        id := "seed-1",
        link := "https://maps.example/place/cafe?hl=en" }) emailRespOk).monitorEvents = [] := by
  decide

/-- C8: a processed PlaceJob emits either no child or exactly one
EmailExtractJob, the latter only when email extraction is enabled and
the processed entry's website is non-empty and valid for email
extraction; a processed EmailExtractJob never emits children. -/
theorem fanout_rule :
    (∀ (j : PlaceJob) (resp : PlaceResponse),
      (placeProcess j resp).children = [] ∨
      ∃ e : Entry,
        (placeProcess j resp).children = [ChildJob.email (NewEmailJob j.parentID e)] ∧
        j.extractEmail = true ∧ e.isWebsiteValidForEmail = true ∧ e.webSite ≠ "") ∧
    (∀ (ej : EmailJob) (resp : EmailResponse), (emailProcess ej resp).children = []) := by
  constructor
  · intro j resp
    have step : ∀ (raw : String) (e : Entry),
        (placeEmailStep j raw e).children = [] ∨
        ∃ e2 : Entry,
          (placeEmailStep j raw e2).children = [ChildJob.email (NewEmailJob j.parentID e2)] ∧
          j.extractEmail = true ∧ e2.isWebsiteValidForEmail = true ∧ e2.webSite ≠ "" := by
      intro raw e
      rcases placeEmailStep_children j raw e with h | h
      · exact Or.inl h
      · exact Or.inr ⟨e, h.1, h.2.1, h.2.2.1, h.2.2.2⟩
    unfold placeProcess
    split
    · exact Or.inl rfl
    · split
      · exact Or.inl rfl
      · rename_i e0
        split
        · split
          · split
            · exact Or.inl rfl
            · split
              · rcases placeEmailStep_children j resp.rawJSON _ with h | h
                · exact Or.inl h
                · exact Or.inr ⟨_, h.1, h.2.1, h.2.2.1, h.2.2.2⟩
              · rcases placeEmailStep_children j resp.rawJSON _ with h | h
                · exact Or.inl h
                · exact Or.inr ⟨_, h.1, h.2.1, h.2.2.1, h.2.2.2⟩
          · split
            · exact Or.inl rfl
            · rcases placeEmailStep_children j resp.rawJSON _ with h | h
              · exact Or.inl h
              · exact Or.inr ⟨_, h.1, h.2.1, h.2.2.1, h.2.2.2⟩
        · rcases placeEmailStep_children j resp.rawJSON _ with h | h
          · exact Or.inl h
          · exact Or.inr ⟨_, h.1, h.2.1, h.2.2.1, h.2.2.2⟩
  · intro ej resp
    unfold emailProcess
    split
    · split
      · rfl
      · split <;> rfl
    · split
      · rfl
      · split <;> rfl

/-- C9: an EmailExtractJob whose fetch failed or whose response document
is unusable returns the place's entry unchanged, a nil error and no
children: email extraction failure never propagates as a job error. -/
theorem email_failure_non_propagating (j : EmailJob) (resp : EmailResponse)
    (h : resp.hasError = true ∨ resp.docIsGoquery = false) :
    (emailProcess j resp).result = some j.entry ∧
    (emailProcess j resp).children = [] ∧
    (emailProcess j resp).err = none := by
  unfold emailProcess
  rcases h with h | h
  · simp [h]
  · cases hb : resp.hasError
    · simp [h, hb]
    · simp [hb]

/-- Witness for C9 at a concrete failed fetch. -/
theorem email_failure_non_propagating_witness :
    (emailProcess (NewEmailJob "seed-1" entryC1) emailRespErr).result = some entryC1 ∧
    (emailProcess (NewEmailJob "seed-1" entryC1) emailRespErr).children = [] ∧
    (emailProcess (NewEmailJob "seed-1" entryC1) emailRespErr).err = none :=
  email_failure_non_propagating (NewEmailJob "seed-1" entryC1) emailRespErr (Or.inl rfl)

/-- C10: an entry built from a payload lacking a `link` field leaves
`Process` with its link set to the job's full URL and its id set to the
job's parent id; and the full URL of a job built by `NewPlaceJob` is
never the empty string (it always carries the `hl` query parameter), so
such a finalized entry's link is never empty. -/
theorem entry_link_default :
    (∀ (j : PlaceJob) (resp : PlaceResponse) (e0 e : Entry),
      resp.metaJSONOk = true → resp.parsed = Except.ok e0 → e0.link = "" →
      (placeProcess j resp).result = some e →
      e.id = j.parentID ∧ e.link = j.getFullURL) ∧
    (∀ (parentID langCode u : String) (extractEmail extraExtraReviews : Bool)
       (reviewsLimit : Int) (hasExitMonitor : Bool),
      (NewPlaceJob parentID langCode u extractEmail extraExtraReviews reviewsLimit
        hasExitMonitor).getFullURL ≠ "") := by
  constructor
  · intro j resp e0 e hmeta hp hlink hres
    unfold placeProcess at hres
    rw [hp] at hres
    simp only [hmeta, Bool.not_true, Bool.false_eq_true, if_false, hlink, if_pos rfl] at hres
    split at hres
    · split at hres
      · split at hres
        · injection hres with h2
          subst h2
          exact ⟨rfl, rfl⟩
        · split at hres
          · rw [placeEmailStep_result] at hres
            injection hres with h2
            subst h2
            exact ⟨rfl, rfl⟩
          · rw [placeEmailStep_result] at hres
            injection hres with h2
            rcases foldl_addReview_id_link _ _ with ⟨hid, hlk⟩
            rw [← h2]
            exact ⟨hid, hlk⟩
      · split at hres
        · injection hres with h2
          subst h2
          exact ⟨rfl, rfl⟩
        · rw [placeEmailStep_result] at hres
          injection hres with h2
          subst h2
          exact ⟨rfl, rfl⟩
    · rw [placeEmailStep_result] at hres
      injection hres with h2
      subst h2
      exact ⟨rfl, rfl⟩
  · intro parentID langCode u extractEmail extraExtraReviews reviewsLimit hasExitMonitor
    intro hempty
    have hlen := congrArg String.length hempty
    have he : (NewPlaceJob parentID langCode u extractEmail extraExtraReviews
        reviewsLimit hasExitMonitor).getFullURL = u ++ "?" ++ ("hl" ++ "=" ++ langCode) := rfl
    rw [he] at hlen
    simp only [String.length_append] at hlen
    have h1 : ("?" : String).length = 1 := rfl
    have h0 : ("" : String).length = 0 := rfl
    omega
